import Mathlib

/-! Verification of `redact.py`: a single function `censor_file` that reads a
text file, replaces every match of each pattern in a list with the literal
placeholder `"[REDACTED]"` (one `re.sub` pass per pattern, each pass applied to
the buffer produced by the previous pass), and writes the result back to the
same path. The host regex engine (Python's `re` module) is not part of the
repository sources, so it is modelled here as a reference backtracking engine
with Python's leftmost, backtracking-preferred match semantics over the
dialect the spec names (§3): literals, `.`, character classes, anchors,
quantifiers (greedy and lazy, including `{m,n}` bounds), alternation, capture
groups (plus `(?:...)`), backreferences, and the standard escapes
`\d \D \s \S \w \W \b \B \A \Z`.  Extensions the spec itself calls
dialect-dependent (§9: lookaround, named groups, Unicode classes, inline
flags) are outside the modelled dialect and rejected at compile time; word
and space classes are the ASCII ones. -/

/-- Errors the program can raise: a path/I-O error when the file cannot be
read, or a pattern-compilation error naming the offending pattern
(Python's `re.error` raised by `re.sub` when its pattern does not compile). -/
inductive CensorError where
  | pathError : CensorError
  | patternError (pattern : String) : CensorError
deriving DecidableEq

/-- One item of a character class: an inclusive character range (a literal
`c` is the range `(c, c)`) or one of the predefined class escapes
`\d \D \s \S \w \W`. -/
inductive ClsItem where
  | range (lo hi : Char) : ClsItem
  | digit : ClsItem
  | nondigit : ClsItem
  | word : ClsItem
  | nonword : ClsItem
  | space : ClsItem
  | nonspace : ClsItem
deriving DecidableEq

/-- ASCII word character, as matched by `\w` and tested by `\b`. -/
def isWordChar (c : Char) : Bool :=
  c.isAlphanum || c == '_'

/-- ASCII whitespace, as matched by `\s`. -/
def isSpaceChar (c : Char) : Bool :=
  c == ' ' || c == '\t' || c == '\n' || c == '\r' || c == '\x0b' || c == '\x0c'

/-- Whether a single class item accepts a character. -/
def clsItemMatch : ClsItem → Char → Bool
  | .range lo hi, c => decide (lo ≤ c) && decide (c ≤ hi)
  | .digit, c => c.isDigit
  | .nondigit, c => !c.isDigit
  | .word, c => isWordChar c
  | .nonword, c => !isWordChar c
  | .space, c => isSpaceChar c
  | .nonspace, c => !isSpaceChar c

/-- Modelled from the spec: abstract syntax for the regular-expression dialect
of the host regex engine (Python's `re` module, which is not part of the
repository sources; the spec defers to "the host regex engine's standard
leftmost-match semantics").  `star` carries a laziness flag (`a*` vs `a*?`);
`+`, `?` and `{m,n}` are desugared by the pattern compiler.  `bol`/`eol` are
the anchors `^`/`$` (no MULTILINE), `eos` is `\Z`, `wordB` is `\b`
(negated: `\B`), and `bref` is a numbered backreference. -/
inductive Regex where
  | eps : Regex
  | chr (c : Char) : Regex
  | dot : Regex
  | cls (neg : Bool) (items : List ClsItem) : Regex
  | cat (r₁ r₂ : Regex) : Regex
  | alt (r₁ r₂ : Regex) : Regex
  | star (lazy : Bool) (r : Regex) : Regex
  | group (idx : Nat) (r : Regex) : Regex
  | bol : Regex
  | eol : Regex
  | eos : Regex
  | wordB (neg : Bool) : Regex
  | bref (n : Nat) : Regex
deriving DecidableEq

/-- Capture-group bindings recorded during a match: group index paired with
the captured text (most recent binding first, as in Python where the last
repetition of a group wins). -/
abbrev Caps := List (Nat × List Char)

/-- Character-class membership: `items` are the class items; `neg` negates
the class. -/
def classMatch (neg : Bool) (items : List ClsItem) (c : Char) : Bool :=
  let inItems := items.any fun it => clsItemMatch it c
  if neg then !inItems else inItems

/-- Whether the previous character (none at the start of the string) is a
word character. -/
def isWordOpt : Option Char → Bool
  | none => false
  | some c => isWordChar c

/-- Whether the position between `prev` and the start of `s` is a word
boundary. -/
def atBoundary (prev : Option Char) (s : List Char) : Bool :=
  isWordOpt prev != isWordOpt s.head?

/-- Structural size of a regex, used only to compute a generous fuel bound
for the backtracking matcher. -/
def Regex.size : Regex → Nat
  | .eps => 1
  | .chr _ => 1
  | .dot => 1
  | .cls _ _ => 1
  | .cat r₁ r₂ => r₁.size + r₂.size + 1
  | .alt r₁ r₂ => r₁.size + r₂.size + 1
  | .star _ r => r.size + 1
  | .group _ r => r.size + 1
  | .bol => 1
  | .eol => 1
  | .eos => 1
  | .wordB _ => 1
  | .bref _ => 1

/-- Modelled from the spec: the backtracking matcher of the host regex engine
(Python `re`), in continuation-passing style.  `matchk fuel r prev s caps k`
tries the ways `r` can consume a prefix of `s` in Python's preference order
(alternatives left to right, repetition greedy unless the lazy flag is set)
and returns the first way the continuation `k` accepts; `k` receives the
character preceding the remaining suffix (for the position-dependent
constructs `^`, `$`, `\b`), the remaining suffix, and the capture bindings.
A repetition step that consumes nothing is discarded, as in Python's handling
of empty loop iterations.  `.` does not match a newline (no `DOTALL`); `^`
matches only at the start of the string and `$` at the end or before a sole
trailing newline (no `MULTILINE`); a backreference to an unset group fails.
The fuel only bounds the recursion depth; `matchFuel` below always provides
enough. -/
def matchk : Nat → Regex → Option Char → List Char → Caps →
    (Option Char → List Char → Caps → Option (List Char × Caps)) →
    Option (List Char × Caps)
  | 0, _, _, _, _, _ => none
  | _+1, .eps, prev, s, caps, k => k prev s caps
  | _+1, .chr c, _prev, s, caps, k =>
    match s with
    | [] => none
    | c' :: rest => if c' = c then k (some c') rest caps else none
  | _+1, .dot, _prev, s, caps, k =>
    match s with
    | [] => none
    | c' :: rest => if c' = '\n' then none else k (some c') rest caps
  | _+1, .cls neg items, _prev, s, caps, k =>
    match s with
    | [] => none
    | c' :: rest => if classMatch neg items c' then k (some c') rest caps else none
  | _+1, .bol, prev, s, caps, k =>
    match prev with
    | none => k none s caps
    | some _ => none
  | _+1, .eol, prev, s, caps, k =>
    if s.isEmpty || s == ['\n'] then k prev s caps else none
  | _+1, .eos, prev, s, caps, k =>
    if s.isEmpty then k prev s caps else none
  | _+1, .wordB neg, prev, s, caps, k =>
    if atBoundary prev s = neg then none else k prev s caps
  | _+1, .bref n, prev, s, caps, k =>
    match caps.find? (fun e => e.1 == n) with
    | none => none
    | some e =>
      if e.2.isPrefixOf s then
        k (match e.2.getLast? with | some ch => some ch | none => prev)
          (s.drop e.2.length) caps
      else none
  | fuel+1, .cat r₁ r₂, prev, s, caps, k =>
    matchk fuel r₁ prev s caps (fun prev₁ s₁ caps₁ =>
      matchk fuel r₂ prev₁ s₁ caps₁ k)
  | fuel+1, .alt r₁ r₂, prev, s, caps, k =>
    match matchk fuel r₁ prev s caps k with
    | some res => some res
    | none => matchk fuel r₂ prev s caps k
  | fuel+1, .star lz r₁, prev, s, caps, k =>
    if lz then
      match k prev s caps with
      | some res => some res
      | none =>
        matchk fuel r₁ prev s caps (fun prev₁ s₁ caps₁ =>
          if s₁.length < s.length then matchk fuel (.star lz r₁) prev₁ s₁ caps₁ k
          else none)
    else
      match matchk fuel r₁ prev s caps (fun prev₁ s₁ caps₁ =>
          if s₁.length < s.length then matchk fuel (.star lz r₁) prev₁ s₁ caps₁ k
          else none) with
      | some res => some res
      | none => k prev s caps
  | fuel+1, .group idx r₁, prev, s, caps, k =>
    matchk fuel r₁ prev s caps (fun prev₁ s₁ caps₁ =>
      k prev₁ s₁ ((idx, s.take (s.length - s₁.length)) :: caps₁))

/-- A fuel bound large enough for `matchk` on regex `r` and input `s`:
the matcher's recursion depth is bounded by the regex nesting depth plus one
unit per character a repetition consumes. -/
def matchFuel (r : Regex) (s : List Char) : Nat :=
  (r.size + 2) * (s.length + 2)

/-- The match the host engine produces anchored at the current position:
`prev` is the character before that position (none at the start of the
string), `s` the remaining input.  Returns the first (most preferred) way `r`
matches a prefix of `s`: the remaining suffix and the capture bindings. -/
def firstMatchAt (r : Regex) (prev : Option Char) (s : List Char) :
    Option (List Char × Caps) :=
  matchk (matchFuel r s) r prev s [] (fun _ rest caps => some (rest, caps))

/-- The leftmost match of `r` in the suffix `s` of the scanned string, where
`prev` is the character before `s` (Python's `search` from that position):
try each start position left to right, and at the first position where `r`
matches take the engine's preferred match there.  Returns the text before
the match, the matched text, the text after the match, and the captures. -/
def findMatchAux (r : Regex) : Option Char → List Char →
    Option (List Char × List Char × List Char × Caps)
  | prev, [] =>
    match firstMatchAt r prev [] with
    | some (rest, caps) => some ([], [], rest, caps)
    | none => none
  | prev, c :: s' =>
    match firstMatchAt r prev (c :: s') with
    | some (rest, caps) =>
      some ([], (c :: s').take ((c :: s').length - rest.length), rest, caps)
    | none =>
      match findMatchAux r (some c) s' with
      | none => none
      | some (pre, m, rest, caps) => some (c :: pre, m, rest, caps)

/-- The leftmost match of `r` in a whole string (Python's `search`). -/
def findMatch (r : Regex) (s : List Char) :
    Option (List Char × List Char × List Char × Caps) :=
  findMatchAux r none s

/-- Look up the most recent binding of capture group `idx` (empty text when
the group is unbound). -/
def lookupCap (caps : Caps) (idx : Nat) : List Char :=
  match caps.find? (fun e => e.1 == idx) with
  | some e => e.2
  | none => []

/-- Modelled from the spec: Python's replacement-template expansion for
`re.sub`.  A backslash followed by a digit is interpolated as that capture
group's text; every other character stands for itself.  The program only ever
uses the template `"[REDACTED]"`, which contains no backslash. -/
def expandTemplate : List Char → Caps → List Char
  | [], _ => []
  | c :: rest, caps =>
    if c = '\\' then
      match rest with
      | [] => [c]
      | d :: rest' =>
        (if d.isDigit then lookupCap caps (d.toNat - 48) else [d]) ++
          expandTemplate rest' caps
    else c :: expandTemplate rest caps

/-- The scan loop of `re.sub` (Python 3.7+ semantics): repeatedly find the
leftmost match, emit the text before it and the expanded replacement, and
continue after the match, carrying the character before the resume position
so the anchors and `\b` see the original context; after an empty match one
input character is copied through so the scan advances.  The fuel bounds the
number of replacements, which never exceeds the input length plus one. -/
def subAux (r : Regex) (repl : List Char) : Nat → Option Char → List Char → List Char
  | 0, _, s => s
  | fuel+1, prev, s =>
    match findMatchAux r prev s with
    | none => s
    | some (pre, m, rest, caps) =>
      match m with
      | [] =>
        match rest with
        | [] => pre ++ expandTemplate repl caps
        | c :: rest' =>
          pre ++ expandTemplate repl caps ++ c :: subAux r repl fuel (some c) rest'
      | _ :: _ =>
        pre ++ expandTemplate repl caps ++ subAux r repl fuel m.getLast? rest

/-- Modelled from the spec: the substitution performed by Python's
`re.sub(pattern, repl, content)` once the pattern has compiled to `r`:
every non-overlapping match of `r` in `content`, found left to right, is
replaced by the expansion of `repl`. -/
def pySubT (r : Regex) (repl : String) (content : String) : String :=
  ⟨subAux r repl.data (content.data.length + 1) none content.data⟩

/-- The parsing jobs of the pattern compiler's recursive-descent grammar:
an alternation, a concatenation in progress (with the regex accumulated so
far), or a single repeatable atom. -/
inductive PJob where
  | palt (s : List Char) (gi : Nat) : PJob
  | pcat (acc : Option Regex) (s : List Char) (gi : Nat) : PJob
  | patom (s : List Char) (gi : Nat) : PJob

/-- Append an atom to the concatenation accumulated so far. -/
def catAcc (acc : Option Regex) (a : Regex) : Regex :=
  match acc with
  | none => a
  | some r => .cat r a

/-- The regex denoted by a finished concatenation accumulator (an empty
concatenation matches the empty string). -/
def ofAcc (acc : Option Regex) : Regex :=
  match acc with
  | none => .eps
  | some r => r

/-- Single-character escapes: the control escapes `\n \t \r \f \v \a` and any
escaped punctuation stand for a literal character; escaping any other letter
or digit is not a single-character escape (Python's "bad escape" unless
handled as a class, anchor or backreference by the caller). -/
def escChar (c : Char) : Option Char :=
  if c = 'n' then some '\n'
  else if c = 't' then some '\t'
  else if c = 'r' then some '\r'
  else if c = 'f' then some '\x0c'
  else if c = 'v' then some '\x0b'
  else if c = 'a' then some '\x07'
  else if c.isAlphanum then none
  else some c

/-- Inside a character class `\b` is a backspace, not a word boundary. -/
def escCharCls (c : Char) : Option Char :=
  if c = 'b' then some '\x08' else escChar c

/-- Hexadecimal digit test for `\xhh` escapes. -/
def isHexChar (c : Char) : Bool :=
  c.isDigit || (decide ('a' ≤ c) && decide (c ≤ 'f')) ||
    (decide ('A' ≤ c) && decide (c ≤ 'F'))

/-- Value of a hexadecimal digit. -/
def hexVal (c : Char) : Nat :=
  if c.isDigit then c.toNat - 48
  else if decide ('a' ≤ c) then c.toNat - 87
  else c.toNat - 55

/-- Decimal number denoted by a digit string (0 when empty). -/
def digitsToNat (ds : List Char) : Nat :=
  ds.foldl (fun n c => 10 * n + (c.toNat - 48)) 0

/-- Outcome of reading a `{...}` repetition suffix: not a quantifier at all
(the `{` is then a literal character, as in Python), a malformed quantifier
(`{m,n}` with `m > n`, a compile error), or a quantifier with its bounds
(`hi = none` means unbounded) and the input after the closing `}`. -/
inductive BoundsRes where
  | noQuant : BoundsRes
  | bad : BoundsRes
  | quant (lo : Nat) (hi : Option Nat) (rest : List Char) : BoundsRes

/-- Read the bounds of a `{m}` / `{m,}` / `{m,n}` / `{,n}` quantifier from
the input following `{`.  A `{` whose content is not of one of these shapes
(including `{}` and `{,}`) is a literal, as in Python's parser. -/
def parseBounds (s : List Char) : BoundsRes :=
  let lo := s.takeWhile (fun c => c.isDigit)
  let s₁ := s.dropWhile (fun c => c.isDigit)
  match s₁ with
  | '}' :: s₂ =>
    match lo with
    | [] => .noQuant
    | _ => .quant (digitsToNat lo) (some (digitsToNat lo)) s₂
  | ',' :: s₂ =>
    let hi := s₂.takeWhile (fun c => c.isDigit)
    let s₃ := s₂.dropWhile (fun c => c.isDigit)
    match s₃ with
    | '}' :: s₄ =>
      match lo, hi with
      | [], [] => .noQuant
      | _, [] => .quant (digitsToNat lo) none s₄
      | _, _ =>
        if digitsToNat hi < digitsToNat lo then .bad
        else .quant (digitsToNat lo) (some (digitsToNat hi)) s₄
    | _ => .noQuant
  | _ => .noQuant

/-- Consume a `?` making the preceding quantifier lazy, when present. -/
def checkLazy : List Char → Bool × List Char
  | '?' :: rest => (true, rest)
  | rest => (false, rest)

/-- `m` mandatory copies of `a` followed by `tail`. -/
def repeatCat (a : Regex) : Nat → Regex → Regex
  | 0, tail => tail
  | k+1, tail => .cat a (repeatCat a k tail)

/-- Up to `k` further copies of `a`; the greedy form prefers taking another
copy, the lazy form prefers stopping. -/
def optRep (a : Regex) (lz : Bool) : Nat → Regex
  | 0 => .eps
  | k+1 =>
    if lz then .alt .eps (.cat a (optRep a lz k))
    else .alt (.cat a (optRep a lz k)) .eps

/-- Desugar a `{lo,hi}` quantifier (`hi = none` unbounded, `lo ≤ hi`). -/
def buildRep (a : Regex) (lz : Bool) (lo : Nat) (hi : Option Nat) : Regex :=
  match hi with
  | none => repeatCat a lo (.star lz a)
  | some n => repeatCat a lo (optRep a lz (n - lo))

/-- Zero-width assertions, which Python refuses to quantify directly
("nothing to repeat"). -/
def isAnchor : Regex → Bool
  | .bol => true
  | .eol => true
  | .eos => true
  | .wordB _ => true
  | _ => false

/-- One element of a character class body: a single character (literal,
escaped punctuation or control, `\xhh`, or a single-digit octal escape) or a
predefined class escape `\d \D \s \S \w \W` (which cannot bound a range). -/
def clsElem : List Char → Option ((Char ⊕ ClsItem) × List Char)
  | [] => none
  | '\\' :: 'x' :: h₁ :: h₂ :: rest =>
    if isHexChar h₁ && isHexChar h₂ then
      some (.inl (Char.ofNat (16 * hexVal h₁ + hexVal h₂)), rest)
    else none
  | '\\' :: c :: rest =>
    if c = 'd' then some (.inr .digit, rest)
    else if c = 'D' then some (.inr .nondigit, rest)
    else if c = 'w' then some (.inr .word, rest)
    else if c = 'W' then some (.inr .nonword, rest)
    else if c = 's' then some (.inr .space, rest)
    else if c = 'S' then some (.inr .nonspace, rest)
    else if c.isDigit then some (.inl (Char.ofNat (c.toNat - 48)), rest)
    else
      match escCharCls c with
      | some ch => some (.inl ch, rest)
      | none => none
  | ['\\'] => none
  | c :: rest => some (.inl c, rest)

/-- Parse a character class body up to the closing `]`, with Python's rules:
a `]` in first position is a literal, `a-z` is a range (reversed ranges and
ranges bounded by a class escape are compile errors), a `-` first, last or
with no right-hand character is a literal, and an unterminated class is a
compile error ("unterminated character set"). -/
def parseClassItems : Nat → Bool → List Char → Option (List ClsItem × List Char)
  | 0, _, _ => none
  | _+1, _, [] => none
  | fuel+1, first, ']' :: rest =>
    if first then
      match parseClassItems fuel false rest with
      | none => none
      | some (items, rest') => some (.range ']' ']' :: items, rest')
    else some ([], rest)
  | fuel+1, _, s =>
    match clsElem s with
    | none => none
    | some (.inr item, rest) =>
      match parseClassItems fuel false rest with
      | none => none
      | some (items, rest') => some (item :: items, rest')
    | some (.inl ch, rest) =>
      match rest with
      | '-' :: ']' :: rest₃ => some ([.range ch ch, .range '-' '-'], rest₃)
      | '-' :: rest₂ =>
        match clsElem rest₂ with
        | none => none
        | some (.inr _, _) => none
        | some (.inl ch₂, rest₃) =>
          if ch₂ < ch then none
          else
            match parseClassItems fuel false rest₃ with
            | none => none
            | some (items, rest') => some (.range ch ch₂ :: items, rest')
      | _ =>
        match parseClassItems fuel false rest with
        | none => none
        | some (items, rest') => some (.range ch ch :: items, rest')

/-- Modelled from the spec: the pattern compiler of the host regex engine
(Python's `re.compile`), as a fuelled recursive-descent parser over the
dialect the spec names: literals, `.`, character classes, the anchors
`^ $ \A \Z`, word boundaries `\b \B`, the class escapes `\d \D \s \S \w \W`,
quantifiers `* + ? {m,n}` with lazy variants, alternation, capture groups,
`(?:...)`, and numbered backreferences (valid only when the group exists).
`gi` numbers capture groups by order of opening parenthesis, starting at 1,
as Python does.  `none` is a pattern-compilation error: unbalanced
parentheses, a quantifier with nothing to repeat (including one applied to
an anchor, or doubled), `{m,n}` with `m > n`, an unterminated or malformed
character class, a trailing backslash, an unknown alphanumeric escape, a
backreference to a missing group, or a `(?...)` extension outside the
modelled dialect (the spec's §9 lists those as host-dependent). -/
def parseF : Nat → PJob → Option (Regex × List Char × Nat)
  | 0, _ => none
  | fuel+1, .palt s gi =>
    match parseF fuel (.pcat none s gi) with
    | none => none
    | some (r, rest, gi') =>
      match rest with
      | '|' :: rest' =>
        match parseF fuel (.palt rest' gi') with
        | none => none
        | some (r₂, rest₂, gi₂) => some (.alt r r₂, rest₂, gi₂)
      | _ => some (r, rest, gi')
  | fuel+1, .pcat acc s gi =>
    match s with
    | [] => some (ofAcc acc, [], gi)
    | ')' :: _ => some (ofAcc acc, s, gi)
    | '|' :: _ => some (ofAcc acc, s, gi)
    | _ =>
      match parseF fuel (.patom s gi) with
      | none => none
      | some (a, rest, gi') =>
        match rest with
        | '*' :: rest' =>
          if isAnchor a then none
          else
            let lzr := checkLazy rest'
            parseF fuel (.pcat (some (catAcc acc (.star lzr.1 a))) lzr.2 gi')
        | '+' :: rest' =>
          if isAnchor a then none
          else
            let lzr := checkLazy rest'
            parseF fuel
              (.pcat (some (catAcc acc (.cat a (.star lzr.1 a)))) lzr.2 gi')
        | '?' :: rest' =>
          if isAnchor a then none
          else
            let lzr := checkLazy rest'
            parseF fuel (.pcat (some (catAcc acc
              (if lzr.1 then .alt .eps a else .alt a .eps))) lzr.2 gi')
        | '{' :: rest' =>
          match parseBounds rest' with
          | .noQuant => parseF fuel (.pcat (some (catAcc acc a)) rest gi')
          | .bad => none
          | .quant lo hi rest'' =>
            if isAnchor a then none
            else
              let lzr := checkLazy rest''
              parseF fuel
                (.pcat (some (catAcc acc (buildRep a lzr.1 lo hi))) lzr.2 gi')
        | _ => parseF fuel (.pcat (some (catAcc acc a)) rest gi')
  | fuel+1, .patom s gi =>
    match s with
    | [] => none
    | '(' :: '?' :: ':' :: rest =>
      match parseF fuel (.palt rest gi) with
      | none => none
      | some (r, rest', gi') =>
        match rest' with
        | ')' :: rest'' => some (r, rest'', gi')
        | _ => none
    | '(' :: '?' :: _ => none
    | '(' :: rest =>
      match parseF fuel (.palt rest (gi + 1)) with
      | none => none
      | some (r, rest', gi') =>
        match rest' with
        | ')' :: rest'' => some (.group gi r, rest'', gi')
        | _ => none
    | '*' :: _ => none
    | '+' :: _ => none
    | '?' :: _ => none
    | '{' :: rest =>
      match parseBounds rest with
      | .noQuant => some (.chr '{', rest, gi)
      | _ => none
    | '^' :: rest => some (.bol, rest, gi)
    | '$' :: rest => some (.eol, rest, gi)
    | '[' :: '^' :: rest =>
      match parseClassItems (rest.length + 1) true rest with
      | none => none
      | some (items, rest') => some (.cls true items, rest', gi)
    | '[' :: rest =>
      match parseClassItems (rest.length + 1) true rest with
      | none => none
      | some (items, rest') => some (.cls false items, rest', gi)
    | '\\' :: 'x' :: h₁ :: h₂ :: rest =>
      if isHexChar h₁ && isHexChar h₂ then
        some (.chr (Char.ofNat (16 * hexVal h₁ + hexVal h₂)), rest, gi)
      else none
    | '\\' :: 'u' :: h₁ :: h₂ :: h₃ :: h₄ :: rest =>
      if isHexChar h₁ && isHexChar h₂ && isHexChar h₃ && isHexChar h₄ then
        some (.chr (Char.ofNat
          (4096 * hexVal h₁ + 256 * hexVal h₂ + 16 * hexVal h₃ + hexVal h₄)),
          rest, gi)
      else none
    | '\\' :: c :: rest =>
      if c = 'd' then some (.cls false [.digit], rest, gi)
      else if c = 'D' then some (.cls false [.nondigit], rest, gi)
      else if c = 'w' then some (.cls false [.word], rest, gi)
      else if c = 'W' then some (.cls false [.nonword], rest, gi)
      else if c = 's' then some (.cls false [.space], rest, gi)
      else if c = 'S' then some (.cls false [.nonspace], rest, gi)
      else if c = 'b' then some (.wordB false, rest, gi)
      else if c = 'B' then some (.wordB true, rest, gi)
      else if c = 'A' then some (.bol, rest, gi)
      else if c = 'Z' then some (.eos, rest, gi)
      else if c = '0' then some (.chr '\x00', rest, gi)
      else if c.isDigit then
        let ds := rest.takeWhile (fun d => d.isDigit)
        let rest' := rest.dropWhile (fun d => d.isDigit)
        let n := digitsToNat (c :: ds)
        if n < gi then some (.bref n, rest', gi) else none
      else
        match escChar c with
        | some ch => some (.chr ch, rest, gi)
        | none => none
    | ['\\'] => none
    | '.' :: rest => some (.dot, rest, gi)
    | c :: rest => some (.chr c, rest, gi)

/-- A fuel bound large enough for `parseF`: the parser descends at most a
constant number of levels per input character. -/
def parseFuel (s : List Char) : Nat := 8 * s.length + 8

/-- Modelled from the spec: `re.compile` — parse a whole pattern string;
`none` is a pattern-compilation error (`re.error`), including leftover
unconsumed input such as an unbalanced `)`. -/
def compile (pattern : String) : Option Regex :=
  match parseF (parseFuel pattern.data) (.palt pattern.data 1) with
  | some (r, [], _) => some r
  | _ => none

/-- Modelled from the spec: Python's `re.sub(pattern, repl, content)` —
compile the pattern (raising `re.error`, modelled as `patternError`, when it
does not compile), then replace every non-overlapping match, leftmost first,
by the expanded replacement. -/
def re_sub (pattern repl content : String) : Except CensorError String :=
  match compile pattern with
  | none => .error (.patternError pattern)
  | some r => .ok (pySubT r repl content)

/-- The in-memory substitution loop of `censor_file` (redact.py lines 9-10):
`for pattern in sensitive_patterns: content = re.sub(pattern, '[REDACTED]',
content)` — each pass scans the buffer already modified by the previous
passes; a raised `re.error` aborts the loop. -/
def censorContent (sensitive_patterns : List String) (content : String) :
    Except CensorError String :=
  sensitive_patterns.foldlM (fun acc p => re_sub p "[REDACTED]" acc) content

/-- The file system visible to the program: each path holds either a text
file's content or nothing. -/
abbrev FileSys := String → Option String

/-- `censor_file(file_path, sensitive_patterns)` from redact.py: read the
file's whole content (an absent file raises the path error before anything
else), run the substitution loop, and only then write the fully substituted
buffer back to the same path.  An error anywhere aborts before the write. -/
def censor_file (fs : FileSys) (file_path : String)
    (sensitive_patterns : List String) : Except CensorError FileSys :=
  match fs file_path with
  | none => .error .pathError
  | some content =>
    match censorContent sensitive_patterns content with
    | .error e => .error e
    | .ok out => .ok (fun q => if q = file_path then some out else fs q)

/-- The file system after an invocation of `censor_file`: the updated one on
success, the untouched original when an error was raised (the program raises
before ever opening the file for writing). -/
def runCensor (fs : FileSys) (file_path : String)
    (sensitive_patterns : List String) : FileSys :=
  match censor_file fs file_path sensitive_patterns with
  | .ok fs' => fs'
  | .error _ => fs

/-- Whether `pattern` (if it compiles) has any match in `s`. -/
def hasMatchS (pattern : String) (s : String) : Bool :=
  match compile pattern with
  | none => false
  | some r => (findMatch r s.data).isSome

/-- Modelled from the spec ("a fixed literal string, `[REDACTED]`, substituted
for every match of every pattern, with no capture-group interpolation"):
the same `re.sub` scan loop, but with the placeholder inserted as a literal,
never consulting the capture bindings.  Used to compare `pySubT` against the
spec's description of the replacement. -/
def subConstAux (r : Regex) : Nat → Option Char → List Char → List Char
  | 0, _, s => s
  | fuel+1, prev, s =>
    match findMatchAux r prev s with
    | none => s
    | some (pre, m, rest, _) =>
      match m with
      | [] =>
        match rest with
        | [] => pre ++ "[REDACTED]".data
        | c :: rest' =>
          pre ++ "[REDACTED]".data ++ c :: subConstAux r fuel (some c) rest'
      | _ :: _ =>
        pre ++ "[REDACTED]".data ++ subConstAux r fuel m.getLast? rest

/-- Spec-worded substitution: every match of `r` replaced by the fixed
literal placeholder, with no dependence on the matched text's groups. -/
def pySubConst (r : Regex) (content : String) : String :=
  ⟨subConstAux r (content.data.length + 1) none content.data⟩

theorem expand_redacted (caps : Caps) :
    expandTemplate ['[', 'R', 'E', 'D', 'A', 'C', 'T', 'E', 'D', ']'] caps =
      ['[', 'R', 'E', 'D', 'A', 'C', 'T', 'E', 'D', ']'] := rfl

theorem subAux_eq_subConstAux (r : Regex) :
    ∀ fuel prev s,
      subAux r ['[', 'R', 'E', 'D', 'A', 'C', 'T', 'E', 'D', ']'] fuel prev s =
        subConstAux r fuel prev s := by
  intro fuel
  induction fuel with
  | zero => intro prev s; rfl
  | succ n ih =>
    intro prev s
    cases hfm : findMatchAux r prev s with
    | none => simp [subAux, subConstAux, hfm]
    | some t =>
      obtain ⟨pre, m, rest, caps⟩ := t
      cases m with
      | nil =>
        cases rest with
        | nil => simp [subAux, subConstAux, hfm, expand_redacted]
        | cons c rest' =>
          simp [subAux, subConstAux, hfm, expand_redacted, ih]
      | cons a m' => simp [subAux, subConstAux, hfm, expand_redacted, ih]

theorem censorContent_cons_ok (p : String) (ps : List String) (c c' : String)
    (h : re_sub p "[REDACTED]" c = .ok c') :
    censorContent (p :: ps) c = censorContent ps c' := by
  simp only [censorContent, List.foldlM, h]
  rfl

theorem censorContent_cons_err (p : String) (ps : List String) (c : String)
    (e : CensorError) (h : re_sub p "[REDACTED]" c = .error e) :
    censorContent (p :: ps) c = .error e := by
  simp only [censorContent, List.foldlM, h]
  rfl

/-- C1: for every content `c` and patterns `p₁, p₂` (both valid), the censor
loop applies `p₁`'s replacement to `c` first and then scans the resulting
already-redacted buffer for `p₂`, never the original `c` — so a later pattern
can match text produced by an earlier substitution, including the literal
placeholder; in particular content `"AB"` with patterns
`["A", "\[REDACTED\]B"]` yields `"[REDACTED]"` after both passes. -/
theorem c1_sequential_passes (p₁ p₂ c : String) (r₁ r₂ : Regex)
    (h₁ : compile p₁ = some r₁) (h₂ : compile p₂ = some r₂) :
    censorContent [p₁, p₂] c =
      .ok (pySubT r₂ "[REDACTED]" (pySubT r₁ "[REDACTED]" c)) ∧
    censorContent ["A", "\\[REDACTED\\]B"] "AB" = .ok "[REDACTED]" := by
  refine ⟨?_, rfl⟩
  have e₁ : re_sub p₁ "[REDACTED]" c = .ok (pySubT r₁ "[REDACTED]" c) := by
    simp [re_sub, h₁]
  have e₂ : re_sub p₂ "[REDACTED]" (pySubT r₁ "[REDACTED]" c) =
      .ok (pySubT r₂ "[REDACTED]" (pySubT r₁ "[REDACTED]" c)) := by
    simp [re_sub, h₂]
  rw [censorContent_cons_ok p₁ [p₂] c _ e₁,
    censorContent_cons_ok p₂ [] _ _ e₂]
  rfl

theorem c1_sequential_passes_witness :
    censorContent ["A", "B"] "AB" =
      .ok (pySubT (.chr 'B') "[REDACTED]" (pySubT (.chr 'A') "[REDACTED]" "AB")) ∧
    censorContent ["A", "\\[REDACTED\\]B"] "AB" = .ok "[REDACTED]" :=
  c1_sequential_passes "A" "B" "AB" (.chr 'A') (.chr 'B') rfl rfl

/-- C3: for every readable file, censoring with an empty pattern sequence
terminates successfully, still performs the read and the write (the result is
the written-back file system), and the written buffer equals the read buffer,
so the file's content is unchanged byte for byte. -/
theorem c3_empty_pattern_list (fs : FileSys) (file_path c : String)
    (hf : fs file_path = some c) :
    censor_file fs file_path [] =
      .ok (fun q => if q = file_path then some c else fs q) ∧
    runCensor fs file_path [] file_path = some c := by
  have h : censor_file fs file_path [] =
      .ok (fun q => if q = file_path then some c else fs q) := by
    simp [censor_file, hf, censorContent, List.foldlM]
    rfl
  refine ⟨h, ?_⟩
  simp [runCensor, h]

theorem c3_empty_pattern_list_witness :
    censor_file (fun q => if q = "f.txt" then some "hello" else none)
        "f.txt" [] =
      .ok (fun q => if q = "f.txt" then some "hello"
        else (fun q' => if q' = "f.txt" then some "hello" else none) q) ∧
    runCensor (fun q => if q = "f.txt" then some "hello" else none)
        "f.txt" [] "f.txt" = some "hello" :=
  c3_empty_pattern_list (fun q => if q = "f.txt" then some "hello" else none)
    "f.txt" "hello" rfl

/-- C7: for every pattern — including patterns with capture groups — every
match is replaced by exactly the fixed literal `"[REDACTED]"` with no
capture-group interpolation: the substitution equals the spec-worded
constant-replacement `pySubConst`, which never consults the captures, and
expanding the template `"[REDACTED]"` yields the same literal whatever the
captured groups are. -/
theorem c7_literal_replacement (r : Regex) (c : String) :
    pySubT r "[REDACTED]" c = pySubConst r c ∧
    ∀ caps, expandTemplate "[REDACTED]".data caps = "[REDACTED]".data := by
  refine ⟨?_, fun _ => rfl⟩
  show String.mk (subAux r "[REDACTED]".data (c.data.length + 1) none c.data) = _
  rw [show "[REDACTED]".data = ['[', 'R', 'E', 'D', 'A', 'C', 'T', 'E', 'D', ']']
    from rfl]
  rw [subAux_eq_subConstAux]
  rfl

/-- C5: for every path holding no readable file, `censor_file` raises the
path/I-O error before any substitution or write — whatever the pattern list,
even an invalid one — and the resulting file system still has no file at
that path (the file is not created). -/
theorem c5_missing_file (fs : FileSys) (file_path : String)
    (pats : List String) (hf : fs file_path = none) :
    censor_file fs file_path pats = .error .pathError ∧
    runCensor fs file_path pats file_path = none := by
  have h : censor_file fs file_path pats = .error .pathError := by
    simp [censor_file, hf]
  exact ⟨h, by simp [runCensor, h, hf]⟩

theorem c5_missing_file_witness :
    censor_file (fun _ => none) "ghost.txt" ["("] = .error .pathError ∧
    runCensor (fun _ => none) "ghost.txt" ["("] "ghost.txt" = none :=
  c5_missing_file (fun _ => none) "ghost.txt" ["("] rfl

theorem censorContent_ok_compiles (ps : List String) :
    ∀ c out, censorContent ps c = .ok out →
      ∀ p ∈ ps, ∃ r, compile p = some r := by
  induction ps with
  | nil => intro c out _ p hp; exact absurd hp (List.not_mem_nil p)
  | cons q ps' ih =>
    intro c out h p hp
    cases hcmp : compile q with
    | none =>
      have e : re_sub q "[REDACTED]" c = .error (.patternError q) := by
        simp [re_sub, hcmp]
      rw [censorContent_cons_err q ps' c _ e] at h
      exact absurd h (by simp)
    | some r =>
      have e : re_sub q "[REDACTED]" c = .ok (pySubT r "[REDACTED]" c) := by
        simp [re_sub, hcmp]
      rw [censorContent_cons_ok q ps' c _ e] at h
      rcases List.mem_cons.mp hp with hq | hp'
      · exact ⟨r, hq ▸ hcmp⟩
      · exact ih _ out h p hp'

theorem censorContent_fixed (ps : List String) (x : String)
    (h : ∀ p ∈ ps, re_sub p "[REDACTED]" x = .ok x) :
    censorContent ps x = .ok x := by
  induction ps with
  | nil => rfl
  | cons q ps' ih =>
    rw [censorContent_cons_ok q ps' x x (h q (List.mem_cons_self q ps'))]
    exact ih (fun p hp => h p (List.mem_cons_of_mem q hp))

theorem re_sub_no_match (p out : String) (hm : hasMatchS p out = false)
    (r : Regex) (hr : compile p = some r) :
    re_sub p "[REDACTED]" out = .ok out := by
  have hfm : findMatchAux r none out.data = none := by
    have hx := hm
    simp only [hasMatchS, hr, findMatch] at hx
    cases hfm2 : findMatchAux r none out.data with
    | none => rfl
    | some t => rw [hfm2] at hx; simp at hx
  have hps : pySubT r "[REDACTED]" out = out := by
    show String.mk
      (subAux r "[REDACTED]".data (out.data.length + 1) none out.data) = out
    rw [show subAux r "[REDACTED]".data (out.data.length + 1) none out.data
        = out.data by simp [subAux, hfm]]
  simp [re_sub, hr, hps]

/-- C6: running the censor loop twice with the same pattern list is
idempotent — the second run reproduces the first run's output — provided no
pattern has any match left in the first run's output (the formalisation of
"no pattern matches any text of, or produced around, the placeholder"); and
without that proviso a second run can further mutate the placeholder: content
`"[RED"` with pattern `"RED"` becomes `"[[REDACTED]"`, which a second run
turns into `"[[[REDACTED]ACTED]"`. -/
theorem c6_conditional_idempotence (pats : List String) (c out : String)
    (h₁ : censorContent pats c = .ok out)
    (h₂ : ∀ p ∈ pats, hasMatchS p out = false) :
    censorContent pats out = .ok out ∧
    censorContent ["RED"] "[RED" = .ok "[[REDACTED]" ∧
    censorContent ["RED"] "[[REDACTED]" = .ok "[[[REDACTED]ACTED]" := by
  refine ⟨?_, rfl, rfl⟩
  apply censorContent_fixed
  intro p hp
  obtain ⟨r, hr⟩ := censorContent_ok_compiles pats c out h₁ p hp
  exact re_sub_no_match p out (h₂ p hp) r hr

theorem c6_conditional_idempotence_witness :
    censorContent ["secret"] "[REDACTED]" = .ok "[REDACTED]" ∧
    censorContent ["RED"] "[RED" = .ok "[[REDACTED]" ∧
    censorContent ["RED"] "[[REDACTED]" = .ok "[[[REDACTED]ACTED]" :=
  c6_conditional_idempotence ["secret"] "secret" "[REDACTED]" rfl
    (fun p hp => by
      have : p = "secret" := by simpa using hp
      rw [this]
      rfl)

/-- C8: for the concrete file content `"key=ABC123 and token=XYZ789"` and the
pattern list `["ABC123", "XYZ789"]`, the censor writes back exactly
`"key=[REDACTED] and token=[REDACTED]"`. -/
theorem c8_concrete_scenario :
    censorContent ["ABC123", "XYZ789"] "key=ABC123 and token=XYZ789" =
      .ok "key=[REDACTED] and token=[REDACTED]" ∧
    runCensor (fun q => if q = "f.txt" then some "key=ABC123 and token=XYZ789"
        else none) "f.txt" ["ABC123", "XYZ789"] "f.txt" =
      some "key=[REDACTED] and token=[REDACTED]" :=
  ⟨rfl, rfl⟩

/-- C9: the substitution is deterministic and depends on nothing but the
target file's content and the pattern list: two runs over file systems that
agree on the target path (but may differ anywhere else) produce the same
content at that path. -/
theorem c9_deterministic (fs₁ fs₂ : FileSys) (file_path : String)
    (pats : List String) (h : fs₁ file_path = fs₂ file_path) :
    runCensor fs₁ file_path pats file_path =
      runCensor fs₂ file_path pats file_path := by
  cases hc : fs₁ file_path with
  | none =>
    have hc' : fs₂ file_path = none := by rw [← h, hc]
    simp [runCensor, censor_file, hc, hc']
  | some content =>
    have hc' : fs₂ file_path = some content := by rw [← h, hc]
    cases hcc : censorContent pats content with
    | error e => simp [runCensor, censor_file, hc, hc', hcc]
    | ok out => simp [runCensor, censor_file, hc, hc', hcc]

theorem c9_deterministic_witness :
    runCensor (fun q => if q = "f.txt" then some "aA" else none)
        "f.txt" ["A"] "f.txt" =
      runCensor (fun q => if q = "f.txt" then some "aA" else some "other")
        "f.txt" ["A"] "f.txt" :=
  c9_deterministic (fun q => if q = "f.txt" then some "aA" else none)
    (fun q => if q = "f.txt" then some "aA" else some "other")
    "f.txt" ["A"] rfl

/-- C10: a pattern matching the empty string inserts the placeholder at every
position where an empty match occurs rather than leaving the content
unchanged: `"x*"` applied to `"ab"` (which contains no `x`) produces
`"[REDACTED]a[REDACTED]b[REDACTED]"`, an output strictly longer than the
input although no nonempty text matched. -/
theorem c10_empty_match_insertion :
    censorContent ["x*"] "ab" = .ok "[REDACTED]a[REDACTED]b[REDACTED]" ∧
    ("[REDACTED]a[REDACTED]b[REDACTED]" : String).length >
      ("ab" : String).length :=
  ⟨rfl, by decide⟩
